import Mathlib

/-!
# Verification of the UART-lite hello-world test program

A shallow embedding of `source/hello_world_test/main.c`, a bare-metal
diagnostic that drives a memory-mapped UART-lite peripheral: a register
layout description, a reset routine, blocking transmit and receive, a
string writer, and a top-level routine that resets the device and prints
"Hello, World!\r\n" forever.

## Modelling conventions

* The readable hardware face of the device (`rx_fifo` and `status`, both
  `const volatile` in the source) is a trace `Nat → uartlite_s`: each
  busy-wait poll samples the trace at successive indices, so a fresh
  value is re-read on every iteration, matching `volatile` semantics.
  The register access that ends a wait (the transmit-data write in
  `putc_uartlite`, the receive-data read in `getc_uartlite`) happens at
  the same trace index as the poll that observed the releasing status
  bit, since it is the very next access in the same iteration.
* The write-only `control` register is modelled as the program-visible
  mirror of its last written value, as the specification describes; the
  C bit-field assignments in `reset_uartlite` become read-modify-write
  steps (`writeField`) on that mirror.
* Busy-wait loops take a fuel argument; `none` means the fuel ran out
  while the loop was still polling.  Termination and non-termination
  claims quantify over fuel.
* Machine integers are `Nat` with explicit `% 2 ^ 32` (register words)
  and `% 2 ^ 8` (char truncation) where the C code converts.
* Transmit-data writes are logged as `(time, value)` pairs so that
  ordering and "no other writes" claims are exact list equalities.
-/

/-- The readable registers of the UART-lite device at one poll instant:
`rx_fifo` (offset 0x0, `const volatile uint32_t`) and `status`
(offset 0x8, `const volatile uint32_t`, accessed through bit-fields). -/
structure uartlite_s where
  rx_fifo : Nat
  status : Nat
deriving Repr, DecidableEq

/-- Status bit 0 of the source struct: `rx_valid : 1`. -/
def rx_valid (s : uartlite_s) : Bool := s.status.testBit 0

/-- Status bit 3 of the source struct: `tx_full : 1` (preceded by
`rx_valid`, `rx_full`, `tx_empty`). -/
def tx_full (s : uartlite_s) : Bool := s.status.testBit 3

/-- A C bit-field store: replace bits `[pos, pos + width)` of the 32-bit
word `x` by the low `width` bits of `v`, truncating to 32 bits as the
`uint32_t` container does. -/
def writeField (x pos width v : Nat) : Nat :=
  let mask := (2 ^ width - 1) <<< pos
  ((x % 2 ^ 32) &&& ((2 ^ 32 - 1) ^^^ mask)) ||| ((v &&& (2 ^ width - 1)) <<< pos)

/-- `reset_uartlite`: the three bit-field assignments
`uart->tx_reset = 1; uart->rx_reset = 1; uart->intr_enable = 0;` acting
on the control-register mirror (`tx_reset` is bit 0, `rx_reset` bit 1,
then a 2-bit anonymous field, `intr_enable` bit 4).  The C function
returns `void`; the model returns only the updated mirror. -/
def reset_uartlite (control : Nat) : Nat :=
  let c1 := writeField control 0 1 1
  let c2 := writeField c1 1 1 1
  writeField c2 4 1 0

/-- `putc_uartlite`: `while (uart->tx_full); uart->tx_fifo = c;`.
Polls the trace from time `t`; when a poll sees `tx_full` clear, writes
`c` (converted to the 32-bit `tx_fifo`) at that instant and returns the
next free time together with the transmit-write log.  `none` = fuel
exhausted while still polling. -/
def putc_uartlite (dev : Nat → uartlite_s) (c : Nat) :
    Nat → Nat → Option (Nat × List (Nat × Nat))
  | 0, _ => none
  | fuel + 1, t =>
    if tx_full (dev t) then putc_uartlite dev c fuel (t + 1)
    else some (t + 1, [(t, c % 2 ^ 32)])

/-- `getc_uartlite`: `while (!uart->rx_valid); return (char)uart->rx_fifo;`.
Polls the trace from time `t`; when a poll sees `rx_valid` set, reads
`rx_fifo` at that instant, truncates it to a char (low 8 bits), and
returns it with the next free time. -/
def getc_uartlite (dev : Nat → uartlite_s) :
    Nat → Nat → Option (Nat × Nat)
  | 0, _ => none
  | fuel + 1, t =>
    if rx_valid (dev t) then some (t + 1, (dev t).rx_fifo % 2 ^ 8)
    else getc_uartlite dev fuel (t + 1)

/-- `puts_uartlite`: `for (pc = str; *pc; pc++) putc_uartlite(uart, *pc);`.
The string is the byte array before its null terminator (running off the
end of the list is reading the terminator); a zero byte inside the list
also stops the loop, exactly as `*pc` does.  Each character read from
the array is a char, hence taken mod `2 ^ 8`.  Every call to
`putc_uartlite` gets the same fuel. -/
def puts_uartlite (dev : Nat → uartlite_s) (fuel : Nat) :
    List Nat → Nat → Option (Nat × List (Nat × Nat))
  | [], t => some (t, [])
  | c :: cs, t =>
    if c % 2 ^ 8 = 0 then some (t, [])
    else
      match putc_uartlite dev (c % 2 ^ 8) fuel t with
      | none => none
      | some (t1, ws1) =>
        match puts_uartlite dev fuel cs t1 with
        | none => none
        | some (t2, ws2) => some (t2, ws1 ++ ws2)

/-- The bytes of `static char const hello_world[] = "Hello, World!\r\n"`,
terminator excluded (the model reads it as the end of the list). -/
def hello_world : List Nat :=
  [0x48, 0x65, 0x6C, 0x6C, 0x6F, 0x2C, 0x20, 0x57, 0x6F, 0x72, 0x6C, 0x64, 0x21, 0x0D, 0x0A]

/-- The `while(1) puts_uartlite(uartlite, hello_world);` loop of `main`,
unrolled for `k` iterations (the infinite loop is the family of all its
finite unrollings). -/
def main_loop (dev : Nat → uartlite_s) (fuel : Nat) :
    Nat → Nat → Option (Nat × List (Nat × Nat))
  | 0, t => some (t, [])
  | k + 1, t =>
    match puts_uartlite dev fuel hello_world t with
    | none => none
    | some (t1, ws1) =>
      match main_loop dev fuel k t1 with
      | none => none
      | some (t2, ws2) => some (t2, ws1 ++ ws2)

/-- `main` of the C source (the name `main` is reserved in Lean):
`reset_uartlite(uartlite); while(1) puts_uartlite(...);`.
Returns the control-register mirror after the single reset and the
transmit-write log of the first `k` loop iterations. -/
def main_run (dev : Nat → uartlite_s) (fuel k control0 : Nat) :
    Option (Nat × List (Nat × Nat)) :=
  let c := reset_uartlite control0
  match main_loop dev fuel k 0 with
  | none => none
  | some (_, ws) => some (c, ws)

/-- The four 32-bit register fields of `uartlite_s`, in declaration
order. -/
inductive RegName
  | rx_fifo
  | tx_fifo
  | status
  | control
deriving DecidableEq, Repr

/-- Declaration index of each register field in the struct. -/
def reg_index : RegName → Nat
  | .rx_fifo => 0
  | .tx_fifo => 1
  | .status => 2
  | .control => 3

/-- Byte offset of each register: the struct is a sequence of 4-byte
`uint32_t` fields (the unions overlay bit-fields on the same word), so
the offset is 4 times the declaration index. -/
def reg_offset (r : RegName) : Nat := 4 * reg_index r

/-- Whether the field is `const volatile` in the source, i.e. read-only
to software. -/
def reg_readonly : RegName → Bool
  | .rx_fifo => true
  | .status => true
  | .tx_fifo => false
  | .control => false

/-- The named bit-fields of the status register. -/
inductive StatusBit
  | rx_valid
  | rx_full
  | tx_empty
  | tx_full
  | intr_enabled
  | overrun
  | frame
  | parity
deriving DecidableEq, Repr

/-- The named bit-fields of the control register (`pad` is the 2-bit
anonymous field `uint32_t volatile : 2`). -/
inductive ControlBit
  | tx_reset
  | rx_reset
  | pad
  | intr_enable
deriving DecidableEq, Repr

/-- Bit position of a field in a bit-field declaration list
`(name, width)`: fields are allocated from bit 0 upward in declaration
order. -/
def bitfield_pos {α : Type} [DecidableEq α] :
    List (α × Nat) → α → Nat → Option Nat
  | [], _, _ => none
  | (n, w) :: rest, name, acc =>
    if n = name then some acc else bitfield_pos rest name (acc + w)

/-- The status-register bit-field declarations of the source, in order,
each of width 1. -/
def status_decl : List (StatusBit × Nat) :=
  [(.rx_valid, 1), (.rx_full, 1), (.tx_empty, 1), (.tx_full, 1),
   (.intr_enabled, 1), (.overrun, 1), (.frame, 1), (.parity, 1)]

/-- The control-register bit-field declarations of the source, in order:
`tx_reset : 1`, `rx_reset : 1`, a 2-bit anonymous field,
`intr_enable : 1`. -/
def control_decl : List (ControlBit × Nat) :=
  [(.tx_reset, 1), (.rx_reset, 1), (.pad, 2), (.intr_enable, 1)]

/-- The register map as the specification's table states it: offsets
0x0, 0x4, 0x8, 0xC for receive data, transmit data, status, control. -/
def spec_reg_offset : RegName → Nat
  | .rx_fifo => 0x0
  | .tx_fifo => 0x4
  | .status => 0x8
  | .control => 0xC

/-- The status bit positions as the specification's table states them. -/
def spec_status_bit : StatusBit → Nat
  | .rx_valid => 0
  | .rx_full => 1
  | .tx_empty => 2
  | .tx_full => 3
  | .intr_enabled => 4
  | .overrun => 5
  | .frame => 6
  | .parity => 7

/-- The control bit positions as the specification's table states them
(the anonymous padding field has no entry in the table). -/
def spec_control_bit : ControlBit → Option Nat
  | .tx_reset => some 0
  | .rx_reset => some 1
  | .pad => none
  | .intr_enable => some 4

/-- Attach consecutive timestamps starting at `t` to a list of values. -/
def stamp : Nat → List Nat → List (Nat × Nat)
  | _, [] => []
  | t, c :: cs => (t, c) :: stamp (t + 1) cs

/-- Two device traces that agree on the receive register and on every
status bit except the error bits 5 (overrun), 6 (frame) and 7 (parity). -/
def StatusAgree (dev1 dev2 : Nat → uartlite_s) : Prop :=
  ∀ n, (dev1 n).rx_fifo = (dev2 n).rx_fifo ∧
    ∀ i, i ≠ 5 → i ≠ 6 → i ≠ 7 →
      (dev1 n).status.testBit i = (dev2 n).status.testBit i

/-- A device trace whose status is constantly zero: transmit never full,
receive never valid. -/
def devIdle : Nat → uartlite_s := fun _ => ⟨0, 0⟩

/-- A device trace with `rx_valid` always set and garbage in the upper
24 bits of the receive register. -/
def devRx : Nat → uartlite_s := fun _ => ⟨0x1234F, 1⟩

/-- A device trace whose transmit FIFO never reports full. -/
def TxReady (dev : Nat → uartlite_s) : Prop :=
  ∀ n, tx_full (dev n) = false

/-- The same trace with the receive register truncated to its low byte
at every instant. -/
def mask_rx (dev : Nat → uartlite_s) : Nat → uartlite_s :=
  fun n => ⟨(dev n).rx_fifo % 2 ^ 8, (dev n).status⟩

/-- A device trace like `devIdle` but with the three error status bits
(overrun 5, frame 6, parity 7) all set. -/
def devErr : Nat → uartlite_s := fun _ => ⟨0, 0xE0⟩

example : putc_uartlite devIdle 72 1 0 = some (1, [(0, 72)]) := by decide
example : getc_uartlite devRx 1 0 = some (1, 0x4F) := by decide
example : puts_uartlite devIdle 1 [65, 66] 0 = some (2, [(0, 65), (1, 66)]) := by decide
example : reset_uartlite 0 = 3 := by decide
example : reset_uartlite (2 ^ 32 - 1) = 2 ^ 32 - 1 - 16 := by decide

/-! ## Helper lemmas -/

theorem hello_world_bytes : ∀ c ∈ hello_world, c < 2 ^ 8 := by decide

theorem txReady_devIdle : TxReady devIdle := fun _ => by
  simp [devIdle, tx_full, Nat.zero_testBit]

theorem hello_world_no_nul :
    hello_world.takeWhile (fun c => c != 0) = hello_world := by decide

theorem stamp_append (a : List Nat) :
    ∀ (t : Nat) (b : List Nat),
      stamp t (a ++ b) = stamp t a ++ stamp (t + a.length) b := by
  induction a with
  | nil => intro t b; simp [stamp]
  | cons c cs ih =>
    intro t b
    simp only [List.cons_append, stamp, List.length_cons, List.append_eq]
    rw [ih (t + 1) b, show t + 1 + cs.length = t + (cs.length + 1) by omega]

theorem stamp_map_snd (a : List Nat) :
    ∀ t : Nat, (stamp t a).map Prod.snd = a := by
  induction a with
  | nil => intro t; rfl
  | cons c cs ih => intro t; simp [stamp, ih (t + 1)]

/-- What a successful `putc_uartlite` run looks like: one transmit write
of `c` (as a 32-bit store) at the instant just before the returned time,
`tx_full` clear at that instant, `tx_full` set at every polled instant
before it. -/
theorem putc_spec (dev : Nat → uartlite_s) (c : Nat) :
    ∀ fuel t t' ws, putc_uartlite dev c fuel t = some (t', ws) →
      ws = [(t' - 1, c % 2 ^ 32)] ∧ t < t' ∧ tx_full (dev (t' - 1)) = false ∧
        ∀ i, t ≤ i → i < t' - 1 → tx_full (dev i) = true := by
  intro fuel
  induction fuel with
  | zero => intro t t' ws h; simp [putc_uartlite] at h
  | succ fuel ih =>
    intro t t' ws h
    cases hf : tx_full (dev t) with
    | false =>
      simp only [putc_uartlite, hf, Bool.false_eq_true, if_false, Option.some.injEq,
        Prod.mk.injEq] at h
      obtain ⟨rfl, rfl⟩ := h
      exact ⟨by simp, by omega, by simpa using hf, fun i h1 h2 => by omega⟩
    | true =>
      simp only [putc_uartlite, hf, if_true] at h
      obtain ⟨hws, hlt, hfree, hbusy⟩ := ih (t + 1) t' ws h
      refine ⟨hws, by omega, hfree, fun i h1 h2 => ?_⟩
      rcases Nat.eq_or_lt_of_le h1 with rfl | h1'
      · exact hf
      · exact hbusy i h1' h2

/-- What a successful `getc_uartlite` run looks like: `rx_valid` first
seen set at the instant just before the returned time, clear at every
polled instant before it, and the returned value is the receive
register's low byte at that instant. -/
theorem getc_spec (dev : Nat → uartlite_s) :
    ∀ fuel t t' v, getc_uartlite dev fuel t = some (t', v) →
      t < t' ∧ rx_valid (dev (t' - 1)) = true ∧
        (∀ i, t ≤ i → i < t' - 1 → rx_valid (dev i) = false) ∧
        v = (dev (t' - 1)).rx_fifo % 2 ^ 8 := by
  intro fuel
  induction fuel with
  | zero => intro t t' v h; simp [getc_uartlite] at h
  | succ fuel ih =>
    intro t t' v h
    cases hv : rx_valid (dev t) with
    | true =>
      simp only [getc_uartlite, hv, if_true, Option.some.injEq, Prod.mk.injEq] at h
      obtain ⟨rfl, rfl⟩ := h
      exact ⟨by omega, by simpa using hv, fun i h1 h2 => by omega, by simp⟩
    | false =>
      simp only [getc_uartlite, hv, Bool.false_eq_true, if_false] at h
      obtain ⟨hlt, hvalid, hquiet, hval⟩ := ih (t + 1) t' v h
      refine ⟨by omega, hvalid, fun i h1 h2 => ?_, hval⟩
      rcases Nat.eq_or_lt_of_le h1 with rfl | h1'
      · exact hv
      · exact hquiet i h1' h2

/-- Under a never-full transmitter, `putc_uartlite` succeeds on its
first poll. -/
theorem putc_ready (dev : Nat → uartlite_s) (hready : TxReady dev)
    (c fuel t : Nat) :
    putc_uartlite dev c (fuel + 1) t = some (t + 1, [(t, c % 2 ^ 32)]) := by
  simp [putc_uartlite, hready t]

/-- If `tx_full` is clear `k` polls ahead, fuel `k + 1` is enough for
`putc_uartlite` to succeed. -/
theorem putc_eventually (dev : Nat → uartlite_s) (c : Nat) :
    ∀ k t, tx_full (dev (t + k)) = false →
      ∃ r, putc_uartlite dev c (k + 1) t = some r := by
  intro k
  induction k with
  | zero =>
    intro t h
    rw [Nat.add_zero] at h
    exact ⟨(t + 1, [(t, c % 2 ^ 32)]), by simp [putc_uartlite, h]⟩
  | succ k ih =>
    intro t h
    cases hf : tx_full (dev t) with
    | false => exact ⟨(t + 1, [(t, c % 2 ^ 32)]), by simp [putc_uartlite, hf]⟩
    | true =>
      obtain ⟨r, hr⟩ := ih (t + 1) (by rw [show t + 1 + k = t + (k + 1) by omega]; exact h)
      exact ⟨r, by simpa [putc_uartlite, hf] using hr⟩

/-- If `rx_valid` is set `k` polls ahead, fuel `k + 1` is enough for
`getc_uartlite` to succeed. -/
theorem getc_eventually (dev : Nat → uartlite_s) :
    ∀ k t, rx_valid (dev (t + k)) = true →
      ∃ r, getc_uartlite dev (k + 1) t = some r := by
  intro k
  induction k with
  | zero =>
    intro t h
    rw [Nat.add_zero] at h
    exact ⟨(t + 1, (dev t).rx_fifo % 2 ^ 8), by simp [getc_uartlite, h]⟩
  | succ k ih =>
    intro t h
    cases hv : rx_valid (dev t) with
    | true => exact ⟨(t + 1, (dev t).rx_fifo % 2 ^ 8), by simp [getc_uartlite, hv]⟩
    | false =>
      obtain ⟨r, hr⟩ := ih (t + 1) (by rw [show t + 1 + k = t + (k + 1) by omega]; exact h)
      exact ⟨r, by simpa [getc_uartlite, hv] using hr⟩

/-- Under a never-full transmitter, `puts_uartlite` on a byte string
writes exactly the bytes before the first zero, back to back. -/
theorem puts_ready (dev : Nat → uartlite_s) (hready : TxReady dev) (fuel : Nat) :
    ∀ s t, (∀ c ∈ s, c < 2 ^ 8) →
      puts_uartlite dev (fuel + 1) s t =
        some (t + (s.takeWhile (fun c => c != 0)).length,
          stamp t (s.takeWhile (fun c => c != 0))) := by
  intro s
  induction s with
  | nil => intro t hb; simp [puts_uartlite, List.takeWhile, stamp]
  | cons c cs ih =>
    intro t hb
    by_cases h0 : c = 0
    · subst h0
      simp [puts_uartlite, List.takeWhile_cons, stamp]
    · have hc : c < 2 ^ 8 := hb c (by simp)
      have hcm : c % 2 ^ 8 = c := Nat.mod_eq_of_lt hc
      have hc32 : c % 2 ^ 32 = c := Nat.mod_eq_of_lt (by omega)
      have hput := putc_ready dev hready (c % 2 ^ 8) fuel t
      rw [hcm] at hput
      rw [hc32] at hput
      have hrest := ih (t + 1) (fun x hx => hb x (by simp [hx]))
      simp only [puts_uartlite, hcm, h0, if_false, hput, hrest, List.takeWhile_cons,
        bne_iff_ne, ne_eq, not_false_iff, if_true, List.length_cons, stamp,
        List.singleton_append, Option.some.injEq, Prod.mk.injEq]
      exact ⟨by omega, trivial⟩

/-- Under a never-full transmitter, `k` iterations of the `main` loop
write `k` back-to-back copies of the greeting. -/
theorem main_loop_ready (dev : Nat → uartlite_s) (hready : TxReady dev) (fuel : Nat) :
    ∀ k t, main_loop dev (fuel + 1) k t =
      some (t + 15 * k, stamp t (List.flatten (List.replicate k hello_world))) := by
  intro k
  induction k with
  | zero => intro t; simp [main_loop, stamp]
  | succ k ih =>
    intro t
    have hp := puts_ready dev hready fuel hello_world t hello_world_bytes
    rw [hello_world_no_nul] at hp
    simp only [main_loop, hp, ih (t + hello_world.length)]
    rw [List.replicate_succ, List.flatten_cons, stamp_append]
    rw [show t + hello_world.length + 15 * k = t + 15 * (k + 1) by simp [hello_world]; omega]

theorem agree_tx_full (dev1 dev2 : Nat → uartlite_s) (h : StatusAgree dev1 dev2)
    (n : Nat) : tx_full (dev1 n) = tx_full (dev2 n) := by
  unfold tx_full
  exact (h n).2 3 (by omega) (by omega) (by omega)

theorem agree_rx_valid (dev1 dev2 : Nat → uartlite_s) (h : StatusAgree dev1 dev2)
    (n : Nat) : rx_valid (dev1 n) = rx_valid (dev2 n) := by
  unfold rx_valid
  exact (h n).2 0 (by omega) (by omega) (by omega)

theorem putc_agree (dev1 dev2 : Nat → uartlite_s) (h : StatusAgree dev1 dev2) (c : Nat) :
    ∀ fuel t, putc_uartlite dev1 c fuel t = putc_uartlite dev2 c fuel t := by
  intro fuel
  induction fuel with
  | zero => intro t; rfl
  | succ fuel ih =>
    intro t
    simp only [putc_uartlite, agree_tx_full dev1 dev2 h t, ih (t + 1)]

theorem getc_agree (dev1 dev2 : Nat → uartlite_s) (h : StatusAgree dev1 dev2) :
    ∀ fuel t, getc_uartlite dev1 fuel t = getc_uartlite dev2 fuel t := by
  intro fuel
  induction fuel with
  | zero => intro t; rfl
  | succ fuel ih =>
    intro t
    simp only [getc_uartlite, agree_rx_valid dev1 dev2 h t, ih (t + 1), (h t).1]

theorem puts_agree (dev1 dev2 : Nat → uartlite_s) (h : StatusAgree dev1 dev2) (fuel : Nat) :
    ∀ s t, puts_uartlite dev1 fuel s t = puts_uartlite dev2 fuel s t := by
  intro s
  induction s with
  | nil => intro t; rfl
  | cons c cs ih =>
    intro t
    simp only [puts_uartlite, putc_agree dev1 dev2 h (c % 2 ^ 8) fuel t]
    cases putc_uartlite dev2 (c % 2 ^ 8) fuel t with
    | none => rfl
    | some r => simp only [ih r.1]

theorem main_loop_agree (dev1 dev2 : Nat → uartlite_s) (h : StatusAgree dev1 dev2)
    (fuel : Nat) :
    ∀ k t, main_loop dev1 fuel k t = main_loop dev2 fuel k t := by
  intro k
  induction k with
  | zero => intro t; rfl
  | succ k ih =>
    intro t
    simp only [main_loop, puts_agree dev1 dev2 h fuel hello_world t]
    cases puts_uartlite dev2 fuel hello_world t with
    | none => rfl
    | some r => simp only [ih r.1]

/-- `getc_uartlite` depends on the receive register only through its low
byte. -/
theorem getc_mask_rx_agree (dev : Nat → uartlite_s) :
    ∀ fuel t, getc_uartlite dev fuel t = getc_uartlite (mask_rx dev) fuel t := by
  intro fuel
  induction fuel with
  | zero => intro t; rfl
  | succ fuel ih =>
    intro t
    simp only [getc_uartlite, mask_rx, rx_valid, ih (t + 1), Nat.mod_mod_of_dvd _ dvd_rfl]

/-! ## The claims -/

/-- C1: against a device model that always reports transmit-not-full,
the top-level routine resets the device once (the control mirror ends
as `reset_uartlite` of its initial value, written before any transmit)
and the transmit-data writes of its first `k` loop iterations are
exactly `k` back-to-back copies of the bytes of "Hello, World!\r\n",
one write per byte at consecutive instants, with no other transmit
writes interleaved; `k` is arbitrary, so the sequence repeats
indefinitely. -/
theorem main_run_hello_forever (dev : Nat → uartlite_s) (hready : TxReady dev)
    (fuel k control0 : Nat) :
    main_run dev (fuel + 1) k control0 =
      some (reset_uartlite control0,
        stamp 0 (List.flatten (List.replicate k hello_world))) := by
  simp only [main_run, main_loop_ready dev hready fuel k 0]

/-- C1 witness: two loop iterations against the constantly idle device. -/
theorem main_run_hello_forever_witness :
    main_run devIdle 1 2 0 =
      some (reset_uartlite 0,
        stamp 0 (List.flatten (List.replicate 2 hello_world))) :=
  main_run_hello_forever devIdle txReady_devIdle 0 2 0

/-- C2: a successful `putc_uartlite` run performs exactly one
transmit-data write, whose value is `c` (as the 32-bit store to
`tx_fifo`), at the single instant where `tx_full` was observed clear,
and `tx_full` was asserted at every polled instant before that one, so
no write ever happens at a step with `tx_full` asserted. -/
theorem putc_uartlite_write_once (dev : Nat → uartlite_s) (c fuel t t' : Nat)
    (ws : List (Nat × Nat)) (h : putc_uartlite dev c fuel t = some (t', ws)) :
    ws = [(t' - 1, c % 2 ^ 32)] ∧ t < t' ∧ tx_full (dev (t' - 1)) = false ∧
      ∀ i, t ≤ i → i < t' - 1 → tx_full (dev i) = true :=
  putc_spec dev c fuel t t' ws h

/-- C2 witness: writing `'H'` to the constantly idle device. -/
theorem putc_uartlite_write_once_witness :
    [((0 : Nat), (72 : Nat))] = [((1 : Nat) - 1, 72 % 2 ^ 32)] ∧ (0 : Nat) < 1 ∧
      tx_full (devIdle (1 - 1)) = false ∧
      ∀ i, 0 ≤ i → i < 1 - 1 → tx_full (devIdle i) = true :=
  putc_uartlite_write_once devIdle 72 1 0 1 [(0, 72)] (by decide)

/-- C3: a successful `getc_uartlite` run returns only after observing
`rx_valid` asserted, and the byte it returns is the receive data
register's content at the instant `rx_valid` was first observed
asserted (it was clear at every polled instant before). -/
theorem getc_uartlite_first_valid (dev : Nat → uartlite_s) (fuel t t' v : Nat)
    (h : getc_uartlite dev fuel t = some (t', v)) :
    t < t' ∧ rx_valid (dev (t' - 1)) = true ∧
      (∀ i, t ≤ i → i < t' - 1 → rx_valid (dev i) = false) ∧
      v = (dev (t' - 1)).rx_fifo % 2 ^ 8 :=
  getc_spec dev fuel t t' v h

/-- C3 witness: reading from the device whose receive data is always
valid. -/
theorem getc_uartlite_first_valid_witness :
    (0 : Nat) < 1 ∧ rx_valid (devRx (1 - 1)) = true ∧
      (∀ i, 0 ≤ i → i < 1 - 1 → rx_valid (devRx i) = false) ∧
      (79 : Nat) = (devRx (1 - 1)).rx_fifo % 2 ^ 8 :=
  getc_uartlite_first_valid devRx 1 0 1 79 (by decide)

/-- C4: against a device that always reports transmit-not-full,
`puts_uartlite` issues exactly one transmit write per byte of the
string before the terminator, in order at consecutive instants, with
no extra writes and without writing the terminator byte (the log is
exactly the stamped `takeWhile` of the nonzero prefix). -/
theorem puts_uartlite_writes_string (dev : Nat → uartlite_s) (s : List Nat)
    (fuel t : Nat) (hready : TxReady dev) (hbytes : ∀ c ∈ s, c < 2 ^ 8) :
    puts_uartlite dev (fuel + 1) s t =
      some (t + (s.takeWhile (fun c => c != 0)).length,
        stamp t (s.takeWhile (fun c => c != 0))) :=
  puts_ready dev hready fuel s t hbytes

/-- C4 witness: `puts_uartlite` on "AB" issues exactly the two writes
`'A'` then `'B'`. -/
theorem puts_uartlite_writes_string_witness :
    puts_uartlite devIdle 1 [65, 66] 0 =
      some (0 + ([65, 66].takeWhile (fun c => c != 0)).length,
        stamp 0 ([65, 66].takeWhile (fun c => c != 0))) :=
  puts_uartlite_writes_string devIdle [65, 66] 0 0 txReady_devIdle (by decide)

/-- C5: for every initial control-mirror value, after `reset_uartlite`
the transmit-reset bit (control bit 0) and the receive-reset bit
(control bit 1) are set and the interrupt-enable bit (control bit 4)
is clear; the C function returns void, so the model returns only the
updated mirror. -/
theorem reset_uartlite_bits (control0 : Nat) :
    (reset_uartlite control0).testBit 0 = true ∧
    (reset_uartlite control0).testBit 1 = true ∧
    (reset_uartlite control0).testBit 4 = false := by
  refine ⟨?_, ?_, ?_⟩ <;>
    simp only [reset_uartlite, writeField, Nat.testBit_lor, Nat.testBit_land,
      Nat.testBit_xor, Nat.testBit_shiftLeft, Nat.testBit_mod_two_pow,
      Nat.testBit_two_pow_sub_one] <;>
    norm_num

/-- C6: the register layout computed from the source struct (4-byte
`uint32_t` fields in declaration order, bit-fields allocated upward
from bit 0 in declaration order) matches the specification's table:
receive data at 0x0, transmit data at 0x4, status at 0x8 with
rx-valid, rx-full, tx-empty, tx-full, intr-enabled, overrun, frame,
parity at bits 0-7, control at 0xC with tx-reset at bit 0, rx-reset at
bit 1 and intr-enable at bit 4; receive data and status are `const`
(read-only) in the source, and the polling accessors read exactly the
rx-valid and tx-full positions.  (Write-only-ness of the transmit data
and control registers is a hardware property the C type system cannot
express; the source marks them merely non-`const`.) -/
theorem uartlite_register_layout :
    (∀ r, reg_offset r = spec_reg_offset r) ∧
    (∀ b, bitfield_pos status_decl b 0 = some (spec_status_bit b)) ∧
    (∀ b, spec_control_bit b = none ∨
      bitfield_pos control_decl b 0 = spec_control_bit b) ∧
    reg_readonly RegName.rx_fifo = true ∧ reg_readonly RegName.status = true ∧
    (∀ s, rx_valid s = s.status.testBit (spec_status_bit StatusBit.rx_valid) ∧
      tx_full s = s.status.testBit (spec_status_bit StatusBit.tx_full)) := by
  refine ⟨fun r => ?_, fun b => ?_, fun b => ?_, rfl, rfl, fun s => ⟨rfl, rfl⟩⟩
  · cases r <;> rfl
  · cases b <;> rfl
  · cases b
    · right; rfl
    · right; rfl
    · left; rfl
    · right; rfl

/-- C7: `putc_uartlite` succeeds for some fuel exactly when `tx_full`
is eventually deasserted at or after the start instant — on a trace
where it stays asserted forever, no amount of fuel makes the wait
loop exit (there is no timeout) — and symmetrically `getc_uartlite`
succeeds for some fuel exactly when `rx_valid` is eventually
asserted. -/
theorem putc_getc_termination_iff (dev : Nat → uartlite_s) (c t : Nat) :
    ((∃ fuel r, putc_uartlite dev c fuel t = some r) ↔
      ∃ u, t ≤ u ∧ tx_full (dev u) = false) ∧
    ((∃ fuel r, getc_uartlite dev fuel t = some r) ↔
      ∃ u, t ≤ u ∧ rx_valid (dev u) = true) := by
  constructor
  · constructor
    · rintro ⟨fuel, ⟨t', ws⟩, h⟩
      obtain ⟨-, hlt, hfree, -⟩ := putc_spec dev c fuel t t' ws h
      exact ⟨t' - 1, by omega, hfree⟩
    · rintro ⟨u, hu, hfree⟩
      obtain ⟨r, hr⟩ :=
        putc_eventually dev c (u - t) t
          (by rw [show t + (u - t) = u by omega]; exact hfree)
      exact ⟨u - t + 1, r, hr⟩
  · constructor
    · rintro ⟨fuel, ⟨t', v⟩, h⟩
      obtain ⟨hlt, hvalid, -, -⟩ := getc_spec dev fuel t t' v h
      exact ⟨t' - 1, by omega, hvalid⟩
    · rintro ⟨u, hu, hvalid⟩
      obtain ⟨r, hr⟩ :=
        getc_eventually dev (u - t) t
          (by rw [show t + (u - t) = u by omega]; exact hvalid)
      exact ⟨u - t + 1, r, hr⟩

/-- C8: no operation reads the overrun (5), frame (6) or parity (7)
status bits: two device traces that agree on the receive register and
on every other status bit give identical results and identical write
logs for every operation (`reset_uartlite` is a function of the
control mirror alone and never consults the trace at all). -/
theorem error_bits_ignored (dev1 dev2 : Nat → uartlite_s)
    (h : StatusAgree dev1 dev2) :
    (∀ c fuel t, putc_uartlite dev1 c fuel t = putc_uartlite dev2 c fuel t) ∧
    (∀ fuel t, getc_uartlite dev1 fuel t = getc_uartlite dev2 fuel t) ∧
    (∀ fuel s t, puts_uartlite dev1 fuel s t = puts_uartlite dev2 fuel s t) ∧
    (∀ fuel k control0,
      main_run dev1 fuel k control0 = main_run dev2 fuel k control0) :=
  ⟨fun c fuel t => putc_agree dev1 dev2 h c fuel t,
   fun fuel t => getc_agree dev1 dev2 h fuel t,
   fun fuel s t => puts_agree dev1 dev2 h fuel s t,
   fun fuel k _ => by
    simp only [main_run, main_loop_agree dev1 dev2 h fuel k 0]⟩

/-- Bits of the error mask 0xE0 = bits 5, 6, 7: every other index
tests false. -/
theorem testBit_error_mask (i : Nat) (h5 : i ≠ 5) (h6 : i ≠ 6) (h7 : i ≠ 7) :
    Nat.testBit 0xE0 i = false := by
  rcases Nat.lt_or_ge i 8 with h | h
  · interval_cases i <;> revert h5 h6 h7 <;> decide
  · exact Nat.testBit_eq_false_of_lt
      (lt_of_lt_of_le (by omega) (Nat.pow_le_pow_right (by omega) h))

/-- The idle trace and the trace with all three error bits set agree
everywhere except on status bits 5, 6, 7. -/
theorem statusAgree_devIdle_devErr : StatusAgree devIdle devErr :=
  fun _ => ⟨rfl, fun i h5 h6 h7 => by
    show Nat.testBit 0 i = Nat.testBit 0xE0 i
    rw [Nat.zero_testBit, testBit_error_mask i h5 h6 h7]⟩

/-- C8 witness: a transmit against the idle trace and against the
all-error-bits trace behave identically. -/
theorem error_bits_ignored_witness :
    putc_uartlite devIdle 72 3 0 = putc_uartlite devErr 72 3 0 :=
  (error_bits_ignored devIdle devErr statusAgree_devIdle_devErr).1 72 3 0

/-- C9: on an empty string — the first byte read is the null
terminator, whether as the end of the array or as an explicit zero
byte — `puts_uartlite` returns at once: the poll clock does not
advance (no device register is read) and the transmit-write log is
empty. -/
theorem puts_uartlite_empty (dev : Nat → uartlite_s) (fuel t : Nat)
    (rest : List Nat) :
    puts_uartlite dev fuel [] t = some (t, []) ∧
    puts_uartlite dev fuel (0 :: rest) t = some (t, []) :=
  ⟨rfl, by simp [puts_uartlite]⟩

/-- C10: the value `getc_uartlite` returns is the low 8 bits of the
32-bit receive register at the observation instant (`rx_fifo` modulo
2^8, hence below 2^8 even when the upper 24 bits are nonzero), and the
whole run is unchanged if every `rx_fifo` value in the trace is
replaced by its low byte. -/
theorem getc_uartlite_low_byte (dev : Nat → uartlite_s) (fuel t t' v : Nat)
    (h : getc_uartlite dev fuel t = some (t', v)) :
    v = (dev (t' - 1)).rx_fifo % 2 ^ 8 ∧ v < 2 ^ 8 ∧
      getc_uartlite dev fuel t = getc_uartlite (mask_rx dev) fuel t := by
  obtain ⟨-, -, -, hv⟩ := getc_spec dev fuel t t' v h
  exact ⟨hv, by omega, getc_mask_rx_agree dev fuel t⟩

/-- C10 witness: the always-valid device holds 0x1234F in its receive
register; `getc_uartlite` returns its low byte 0x4F = 79. -/
theorem getc_uartlite_low_byte_witness :
    (79 : Nat) = (devRx (1 - 1)).rx_fifo % 2 ^ 8 ∧ (79 : Nat) < 2 ^ 8 ∧
      getc_uartlite devRx 1 0 = getc_uartlite (mask_rx devRx) 1 0 :=
  getc_uartlite_low_byte devRx 1 0 1 79 (by decide)
